import Mathlib

/-!
Verification of the kometa-ui log-streaming, run-tracking and config-backup
core against its natural-language specification.

The embedding models file contents as `List Char` (one character per byte,
ASCII; CR handling of the readline interface is elided since no claim
involves carriage returns).  Fallible filesystem reads are modelled with
`Option (List Char)`: `none` stands for a file that does not exist or
cannot be opened.
-/

namespace KometaUI

/-- Splitting of a character stream into lines as performed by the node
readline interface (src/unnamed/part_004, readline.createInterface): each
segment before a newline is emitted (possibly empty); the trailing segment
after the last newline is emitted only when nonempty, matching how readline
flushes its remaining buffer at stream end. -/
def rlLinesAux : List Char → List Char → List String
  | acc, [] => if acc.isEmpty then [] else [String.mk acc.reverse]
  | acc, c :: rest =>
    if c = '\n' then String.mk acc.reverse :: rlLinesAux [] rest
    else rlLinesAux (c :: acc) rest

/-- All lines of a character stream, readline style. -/
def rlLines (cs : List Char) : List String := rlLinesAux [] cs

/-- JavaScript `array.slice(-count)` for a natural `count`: since
`-0 === 0`, `count = 0` yields the whole array; otherwise the last
`count` elements. -/
def jsSliceNeg (xs : List String) (count : Nat) : List String :=
  if count = 0 then xs else xs.drop (xs.length - count)

/-- `readLastLines` of src/unnamed/part_004: read every line of the file,
return `lines.slice(-count)`; any read failure yields `[]`. -/
def readLastLines (content : Option (List Char)) (count : Nat) : List String :=
  match content with
  | none => []
  | some cs => jsSliceNeg (rlLines cs) count

/-- JavaScript whitespace, restricted to the ASCII range of the model:
space, tab, line feed, carriage return, vertical tab and form feed. -/
def isSpaceChar (c : Char) : Bool :=
  c = ' ' || c = '\t' || c = '\n' || c = '\r' || c = Char.ofNat 11 || c = Char.ofNat 12

/-- The blank-line filter of `readNewLines` (`if (line.trim())`): a line
passes exactly when trimming leaves it nonempty, i.e. when it contains a
non-whitespace character. -/
def isNonBlank (l : String) : Bool := l.data.any (fun c => !isSpaceChar c)

/-- `readNewLines` of src/unnamed/part_004: stream the file starting at
byte `fromPosition`, keep the lines whose trimmed text is nonempty; any
read failure yields `[]`. -/
def readNewLines (content : Option (List Char)) (fromPosition : Nat) : List String :=
  match content with
  | none => []
  | some cs => (rlLines (cs.drop fromPosition)).filter isNonBlank

/-- `LogService.readLines` of src/unnamed/part_003: read every line of the
file and return `lines.slice(-count)`; failures yield `[]`. -/
def readLines (content : Option (List Char)) (count : Nat) : List String :=
  match content with
  | none => []
  | some cs => jsSliceNeg (rlLines cs) count

/-- Events emitted to the `logs` room by `setupLogStreaming`. -/
inductive LogEvent where
  | rotated
  | newLines (lines : List String)
  | initial (lines : List String)
deriving DecidableEq, Repr

/-- The mutable state of `setupLogStreaming`: the byte cursor
`filePosition` and the size of `subscribedSockets`. -/
structure WatchState where
  filePosition : Nat
  subscriberCount : Nat
deriving DecidableEq, Repr

/-- The watcher `change` handler of src/unnamed/part_004 (lines 36-60):
ignore the event when no socket is subscribed; otherwise stat the file,
on `size < filePosition` reset the cursor and emit `logs:rotated`, and
then — against the freshly mutated cursor — on `size > filePosition` read
the new lines, advance the cursor to `size` and emit `logs:new` when the
read returned anything.  `content` is the file observed by the stat and
the read inside this handler. -/
def onChange (st : WatchState) (content : List Char) : WatchState × List LogEvent :=
  if st.subscriberCount = 0 then (st, [])
  else
    let size := content.length
    let pos1 := if size < st.filePosition then 0 else st.filePosition
    let evs1 : List LogEvent := if size < st.filePosition then [LogEvent.rotated] else []
    if pos1 < size then
      let nl := readNewLines (some content) pos1
      ({ st with filePosition := size },
        evs1 ++ if nl.isEmpty then [] else [LogEvent.newLines nl])
    else
      ({ st with filePosition := pos1 }, evs1)

/-- The `subscribe:logs` handler of src/unnamed/part_004 (lines 62-78):
the socket joins the room, the subscriber set grows, the last 200 lines
are sent as `logs:initial`, and `filePosition` is set to the current file
size unconditionally. -/
def onSubscribe (st : WatchState) (content : List Char) : WatchState × List LogEvent :=
  let st1 : WatchState := { st with subscriberCount := st.subscriberCount + 1 }
  let lines := readLastLines (some content) 200
  ({ st1 with filePosition := content.length }, [LogEvent.initial lines])

/-- Lines carried by the `logs:new` events of an event list. -/
def deliveredLines : List LogEvent → List String
  | [] => []
  | LogEvent.newLines ls :: rest => ls ++ deliveredLines rest
  | _ :: rest => deliveredLines rest

theorem rlLinesAux_no_newline (cs : List Char) (acc : List Char) (h : '\n' ∉ cs) :
    rlLinesAux acc cs =
      if acc = [] ∧ cs = [] then [] else [String.mk (acc.reverse ++ cs)] := by
  induction cs generalizing acc with
  | nil => simp [rlLinesAux, List.isEmpty_iff]
  | cons c rest ih =>
    have hc : c ≠ '\n' := fun he => h (he ▸ List.mem_cons_self c rest)
    have hr : '\n' ∉ rest := fun hm => h (List.mem_cons_of_mem c hm)
    simp only [rlLinesAux, if_neg hc]
    rw [ih (c :: acc) hr]
    simp

theorem rlLines_no_newline (cs : List Char) (hne : cs ≠ []) (h : '\n' ∉ cs) :
    rlLines cs = [String.mk cs] := by
  rw [rlLines, rlLinesAux_no_newline cs [] h]
  simp [hne]

theorem rlLinesAux_newline_end (cs : List Char) (acc : List Char) (h : '\n' ∉ cs) :
    rlLinesAux acc (cs ++ ['\n']) = [String.mk (acc.reverse ++ cs)] := by
  induction cs generalizing acc with
  | nil => simp [rlLinesAux]
  | cons c rest ih =>
    have hc : c ≠ '\n' := fun he => h (he ▸ List.mem_cons_self c rest)
    have hr : '\n' ∉ rest := fun hm => h (List.mem_cons_of_mem c hm)
    simp only [List.cons_append, rlLinesAux, if_neg hc, List.append_eq]
    rw [ih (c :: acc) hr]
    simp

theorem rlLines_newline_end (cs : List Char) (h : '\n' ∉ cs) :
    rlLines (cs ++ ['\n']) = [String.mk cs] := by
  rw [rlLines, rlLinesAux_newline_end cs [] h]
  rfl

theorem drop_append_length (l₁ l₂ : List Char) : (l₁ ++ l₂).drop l₁.length = l₂ := by
  simp

/-- C1 counterexample: with one subscriber, cursor 10 and a rotated file of
size 3 and content "ab\n", the change handler does not stop after the
rotation broadcast: in the very same event it reads from offset 0, emits
the whole new content as a `logs:new` delta and leaves the cursor at 3 —
refuting the claim that reading new content is deferred to the next change
event and that no read from offset 0 happens in this event. -/
theorem c1_counterexample :
    onChange ⟨10, 1⟩ "ab\n".toList =
      (⟨3, 1⟩, [LogEvent.rotated, LogEvent.newLines ["ab"]]) := by
  decide

/-- C1 (amended): on a change event reporting `size < cursor` with at least
one subscriber, the handler resets the cursor to 0 and emits exactly one
`rotated` event first, but then immediately reads from offset 0 within the
same event: the cursor ends at the new size, and the new content (when it
has any non-blank line) is emitted as a `logs:new` delta right after the
`rotated` event. -/
theorem c1_rotation_resets_then_reads (st : WatchState) (content : List Char)
    (hsub : st.subscriberCount ≠ 0) (hrot : content.length < st.filePosition) :
    onChange st content =
      ({ st with filePosition := content.length },
        LogEvent.rotated ::
          (if (readNewLines (some content) 0).isEmpty then []
           else [LogEvent.newLines (readNewLines (some content) 0)])) := by
  by_cases hc : content.length = 0
  · have hcontent : content = [] := List.length_eq_zero.mp hc
    subst hcontent
    have hne : st.filePosition ≠ 0 := by omega
    simp [onChange, hsub, hrot, hne, readNewLines, rlLines, rlLinesAux]
  · have hpos : 0 < content.length := Nat.pos_of_ne_zero hc
    simp [onChange, hsub, hrot, hpos, readNewLines]

theorem c1_witness :
    onChange ⟨7, 2⟩ "xy\n".toList =
      (⟨3, 2⟩, LogEvent.rotated ::
        (if (readNewLines (some "xy\n".toList) 0).isEmpty then []
         else [LogEvent.newLines (readNewLines (some "xy\n".toList) 0)])) :=
  c1_rotation_resets_then_reads ⟨7, 2⟩ "xy\n".toList (by decide) (by decide)

/-- C2 counterexample: growing the file from size 2 (content "x\n") to
size 5 (content "x\n\na\n") publishes the delta `["a"]`, while decoding
the bytes in `[2, 5)` into complete lines yields `["", "a"]` — the blank
line is silently dropped by `readNewLines`, so the delta is not exactly
the bytes of `[s1, s2)` decoded into complete lines. -/
theorem c2_counterexample :
    (onChange ⟨2, 1⟩ "x\n\na\n".toList).2 = [LogEvent.newLines ["a"]] ∧
    rlLines ("x\n\na\n".toList.drop 2) = ["", "a"] := by
  decide

/-- C2 (amended): for sizes `s1 < s2`, a change event at size `s1`
(content the first `s1` bytes) followed by one at size `s2` (full content)
with at least one subscriber leaves the cursor first at `s1` and finally at
`s2`, and the second event publishes as its only delta the bytes of
`[s1, s2)` split into readline lines (a trailing unterminated segment
included) with whitespace-only lines removed, in file order; no delta
event is emitted when nothing non-blank remains. -/
theorem c2_incremental_delta (full : List Char) (s1 : Nat) (n : Nat)
    (h1 : 0 < s1) (h2 : s1 < full.length) (hn : n ≠ 0) :
    (onChange ⟨0, n⟩ (full.take s1)).1.filePosition = s1 ∧
    (onChange ⟨s1, n⟩ full).1.filePosition = full.length ∧
    (onChange ⟨s1, n⟩ full).2 =
      (if ((rlLines (full.drop s1)).filter isNonBlank).isEmpty then []
       else [LogEvent.newLines ((rlLines (full.drop s1)).filter isNonBlank)]) := by
  have hlen : (full.take s1).length = s1 := by
    rw [List.length_take]; omega
  have hnotlt : ¬ (full.length < s1) := by omega
  refine ⟨?_, ?_, ?_⟩
  · simp [onChange, hn, hlen, h1]
  · simp [onChange, hn, hnotlt, h2]
  · simp [onChange, hn, hnotlt, h2, readNewLines]

theorem c2_witness :
    (onChange ⟨0, 1⟩ ("x\n\na\n".toList.take 2)).1.filePosition = 2 ∧
    (onChange ⟨2, 1⟩ "x\n\na\n".toList).1.filePosition = 5 ∧
    (onChange ⟨2, 1⟩ "x\n\na\n".toList).2 =
      (if ((rlLines ("x\n\na\n".toList.drop 2)).filter isNonBlank).isEmpty then []
       else [LogEvent.newLines ((rlLines ("x\n\na\n".toList.drop 2)).filter isNonBlank)]) :=
  c2_incremental_delta "x\n\na\n".toList 2 1 (by decide) (by decide) (by decide)

/-- C3 counterexample: a subscriber joining while the watcher is already
tracking with cursor 5 over a 10-byte file moves the cursor to 10 — the
claim that a join leaves an existing cursor unchanged is false, and the
bytes in `[5, 10)` are skipped for incremental delivery. -/
theorem c3_counterexample :
    (onSubscribe ⟨5, 1⟩ "aaaabbbbcc".toList).1.filePosition = 10 ∧ (10 : Nat) ≠ 5 := by
  decide

/-- C3 (amended): a joining subscriber receives a tail snapshot of the last
200 lines computed independently of the cursor, but the join sets the
cursor to the current file size unconditionally — there is no
"only when no cursor exists yet" guard, so a join while the watcher is
already tracking skips any appended-but-undelivered bytes. -/
theorem c3_join_always_resets_cursor (st : WatchState) (content : List Char) :
    onSubscribe st content =
      (⟨content.length, st.subscriberCount + 1⟩,
        [LogEvent.initial (readLastLines (some content) 200)]) :=
  rfl

/-- C4 counterexample: a file whose final line has no trailing newline yet
("ab", cursor 0, one subscriber) causes the change handler to emit the
partially written line "ab" as a complete line — refuting the claim that a
partial final line is never emitted. -/
theorem c4_counterexample :
    onChange ⟨0, 1⟩ "ab".toList = (⟨2, 1⟩, [LogEvent.newLines ["ab"]]) := by
  decide

/-- C4 (amended): a partially written, non-blank final line (no newline
yet) is emitted immediately as if it were a complete line, and the cursor
advances past it; when its completion arrives, the next change event
delivers only the completing fragment (when non-blank), so the completed
line as a whole is never delivered — a line written across two change
events arrives as two fragments. -/
theorem c4_partial_line_fragments (base frag compl : List Char) (n : Nat)
    (hn : n ≠ 0)
    (hfragBlank : isNonBlank (String.mk frag) = true)
    (hfragNl : '\n' ∉ frag)
    (hcompl : compl ≠ [])
    (hcomplNl : '\n' ∉ compl) :
    (onChange ⟨base.length, n⟩ (base ++ frag)).2 =
      [LogEvent.newLines [String.mk frag]] ∧
    (onChange ⟨base.length, n⟩ (base ++ frag)).1 = ⟨(base ++ frag).length, n⟩ ∧
    (onChange ⟨(base ++ frag).length, n⟩ ((base ++ frag) ++ (compl ++ ['\n']))).2 =
      (if isNonBlank (String.mk compl) then [LogEvent.newLines [String.mk compl]]
       else []) ∧
    String.mk (frag ++ compl) ∉
      deliveredLines ((onChange ⟨base.length, n⟩ (base ++ frag)).2) ++
        deliveredLines
          ((onChange ⟨(base ++ frag).length, n⟩ ((base ++ frag) ++ (compl ++ ['\n']))).2) := by
  have hfragNe : frag ≠ [] := by
    intro h
    rw [h] at hfragBlank
    exact absurd hfragBlank (by decide)
  have hfragPos : 0 < frag.length := List.length_pos.mpr hfragNe
  have hsz1 : ¬ ((base ++ frag).length < base.length) := by
    simp only [List.length_append]; omega
  have hgt1 : base.length < (base ++ frag).length := by
    simp only [List.length_append]; omega
  have hdrop1 : (base ++ frag).drop base.length = frag := drop_append_length base frag
  have hrl1 : rlLines frag = [String.mk frag] := rlLines_no_newline frag hfragNe hfragNl
  have he1 : (onChange ⟨base.length, n⟩ (base ++ frag)).2 =
      [LogEvent.newLines [String.mk frag]] := by
    simp [onChange, hn, hsz1, hgt1, hfragPos, readNewLines, hdrop1, hrl1, hfragBlank]
  have he1' : (onChange ⟨base.length, n⟩ (base ++ frag)).1 = ⟨(base ++ frag).length, n⟩ := by
    simp [onChange, hn, hsz1, hgt1, hfragPos]
  have hsz2 : ¬ (((base ++ frag) ++ (compl ++ ['\n'])).length < (base ++ frag).length) := by
    simp only [List.length_append]; omega
  have hgt2 : (base ++ frag).length < ((base ++ frag) ++ (compl ++ ['\n'])).length := by
    simp only [List.length_append, List.length_cons, List.length_nil]; omega
  have hdrop2 : ((base ++ frag) ++ (compl ++ ['\n'])).drop (base ++ frag).length =
      compl ++ ['\n'] := drop_append_length _ _
  have hrl2 : rlLines (compl ++ ['\n']) = [String.mk compl] :=
    rlLines_newline_end compl hcomplNl
  have he2 : (onChange ⟨(base ++ frag).length, n⟩ ((base ++ frag) ++ (compl ++ ['\n']))).2 =
      (if isNonBlank (String.mk compl) then [LogEvent.newLines [String.mk compl]]
       else []) := by
    by_cases hb : isNonBlank (String.mk compl) = true
    · simp [onChange, hn, hsz2, hgt2, readNewLines, hdrop2, hrl2, hb]
    · simp only [Bool.not_eq_true] at hb
      simp [onChange, hn, hsz2, hgt2, readNewLines, hdrop2, hrl2, hb]
  have hne1 : String.mk (frag ++ compl) ≠ String.mk frag := by
    intro h
    have hl := congrArg (fun s => s.data.length) h
    simp at hl
    exact hcompl hl
  have hne2 : String.mk (frag ++ compl) ≠ String.mk compl := by
    intro h
    have hl := congrArg (fun s => s.data.length) h
    simp at hl
    exact hfragNe hl
  refine ⟨he1, he1', he2, ?_⟩
  rw [he1, he2]
  by_cases hb : isNonBlank (String.mk compl) = true
  · simp [hb, deliveredLines, hne1, hne2]
  · simp only [Bool.not_eq_true] at hb
    simp [hb, deliveredLines, hne1]

theorem c4_witness :
    (onChange ⟨2, 1⟩ "x\nab".toList).2 = [LogEvent.newLines ["ab"]] ∧
    (onChange ⟨2, 1⟩ "x\nab".toList).1 = ⟨4, 1⟩ ∧
    (onChange ⟨4, 1⟩ "x\nabc\n".toList).2 =
      (if isNonBlank "c" then [LogEvent.newLines ["c"]] else []) ∧
    "abc" ∉
      deliveredLines ((onChange ⟨2, 1⟩ "x\nab".toList).2) ++
        deliveredLines ((onChange ⟨4, 1⟩ "x\nabc\n".toList).2) :=
  c4_partial_line_fragments "x\n".toList "ab".toList "c".toList 1
    (by decide) (by decide) (by decide) (by decide) (by decide)

/-- C10: the tail readers at the failing input of the `slice(-0)` bug.
A request for the last 0 lines of a file containing the lines "a" and "b"
returns all of its lines instead of an empty sequence, in both
`readLastLines` (src/unnamed/part_004) and `LogService.readLines`
(src/unnamed/part_003), because `lines.slice(-0)` is `lines.slice(0)`;
an unreadable file still yields an empty sequence rather than an error. -/
theorem c10_tail_zero_returns_all :
    readLastLines (some "a\nb\n".toList) 0 = ["a", "b"] ∧
    readLines (some "a\nb\n".toList) 0 = ["a", "b"] ∧
    readLastLines none 0 = ([] : List String) := by
  decide

/-- A decimal digit in the ASCII range. -/
def isDigitChar (c : Char) : Bool := '0' ≤ c && c ≤ '9'

/-- A regex word character, `\w` restricted to ASCII. -/
def isWordChar (c : Char) : Bool :=
  ('a' ≤ c && c ≤ 'z') || ('A' ≤ c && c ≤ 'Z') || isDigitChar c || c = '_'

/-- Exactly `n` digits, returning their decimal value and the rest. -/
def parseDigits : Nat → Nat → List Char → Option (Nat × List Char)
  | 0, acc, cs => some (acc, cs)
  | n + 1, acc, c :: cs =>
    if isDigitChar c then parseDigits n (acc * 10 + (c.toNat - '0'.toNat)) cs
    else none
  | _ + 1, _, [] => none

/-- One required literal character. -/
def expectChar (c : Char) : List Char → Option (List Char)
  | x :: rest => if x = c then some rest else none
  | [] => none

/-- The timestamp captured by the first group of `LOG_PATTERN` in
src/unnamed/part_003: `\d{4}-\d{2}-\d{2} \d{2}:\d{2}:\d{2},\d{3}`.
The regex only constrains digit counts, not field ranges. -/
structure Timestamp where
  year : Nat
  month : Nat
  day : Nat
  hour : Nat
  minute : Nat
  second : Nat
  milli : Nat
deriving DecidableEq, Repr

/-- Parser for the timestamp group of `LOG_PATTERN`. -/
def parseTimestampChars (cs : List Char) : Option (Timestamp × List Char) := do
  let (y, cs) ← parseDigits 4 0 cs
  let cs ← expectChar '-' cs
  let (mo, cs) ← parseDigits 2 0 cs
  let cs ← expectChar '-' cs
  let (d, cs) ← parseDigits 2 0 cs
  let cs ← expectChar ' ' cs
  let (h, cs) ← parseDigits 2 0 cs
  let cs ← expectChar ':' cs
  let (mi, cs) ← parseDigits 2 0 cs
  let cs ← expectChar ':' cs
  let (s, cs) ← parseDigits 2 0 cs
  let cs ← expectChar ',' cs
  let (ms, cs) ← parseDigits 3 0 cs
  pure (⟨y, mo, d, h, mi, s, ms⟩, cs)

/-- The structured form of a log line matching `LOG_PATTERN`. -/
structure ParsedLine where
  ts : Timestamp
  modName : String
  level : String
  message : String
deriving DecidableEq, Repr

/-- `LOG_PATTERN` of src/unnamed/part_003 as a deterministic parser:
`^\[(<timestamp>)\] \[([^\]]+)\]\s+\[(\w+)\]\s+\|\s*(.*)$`.  Each greedy
character class is followed by a delimiter outside the class, so maximal
munch is equivalent to the regex. -/
def parseLogLine (line : String) : Option ParsedLine := do
  let cs := line.toList
  let cs ← expectChar '[' cs
  let (ts, cs) ← parseTimestampChars cs
  let cs ← expectChar ']' cs
  let cs ← expectChar ' ' cs
  let cs ← expectChar '[' cs
  let modChars := cs.takeWhile (fun c => c ≠ ']')
  guard (modChars.isEmpty = false)
  let cs := cs.drop modChars.length
  let cs ← expectChar ']' cs
  let ws1 := cs.takeWhile isSpaceChar
  guard (ws1.isEmpty = false)
  let cs := cs.drop ws1.length
  let cs ← expectChar '[' cs
  let wd := cs.takeWhile isWordChar
  guard (wd.isEmpty = false)
  let cs := cs.drop wd.length
  let cs ← expectChar ']' cs
  let ws2 := cs.takeWhile isSpaceChar
  guard (ws2.isEmpty = false)
  let cs := cs.drop ws2.length
  let cs ← expectChar '|' cs
  let msg := cs.dropWhile isSpaceChar
  pure ⟨ts, String.mk modChars, String.mk wd, String.mk msg⟩

/-- Decimal rendering of a field, left-padded with zeros to the width the
fixed-width digit groups of `LOG_PATTERN` captured. -/
def padNum (width n : Nat) : String :=
  let s := toString n
  String.mk (List.replicate (width - s.length) '0') ++ s

/-- The raw text of a captured timestamp, reconstructed from its fields
(faithful because every group of the pattern has a fixed digit count). -/
def tsString (t : Timestamp) : String :=
  padNum 4 t.year ++ "-" ++ padNum 2 t.month ++ "-" ++ padNum 2 t.day ++ " " ++
    padNum 2 t.hour ++ ":" ++ padNum 2 t.minute ++ ":" ++ padNum 2 t.second ++ "," ++
    padNum 3 t.milli

/-- The `timestamp` field of `LogService.parseLine`: the captured text for
a matching line, and the empty string for a line that does not match. -/
def parsedTimestamp (line : String) : String :=
  match parseLogLine line with
  | some p => tsString p.ts
  | none => ""

/-- `String.prototype.includes`: substring containment test. -/
def hasSub (pat : List Char) : List Char → Bool
  | [] => pat.isEmpty
  | c :: rest => pat.isPrefixOf (c :: rest) || hasSub pat rest

/-- `line.includes(marker)` as applied by `getLastRun`. -/
def includesMarker (marker line : String) : Bool := hasSub marker.toList line.toList

/-- JavaScript truthiness of the `startTime`/`endTime` variables of
`getLastRun`: `null` and the empty string are both falsy. -/
def truthy : Option String → Bool
  | none => false
  | some s => s != ""

/-- The backward scan of `LogService.getLastRun` (src/unnamed/part_003,
lines 231-246), fed the lines most-recent-first.  A line containing
"Finished Run" sets `endTime` (only while `endTime` is falsy); the scan
stops at the first line containing "Starting Run", capturing `startTime`.
Returns the pair `(startTime, endTime)`. -/
def scanRev : List String → Option String → Option String × Option String
  | [], endT => (none, endT)
  | l :: rest, endT =>
    let endT' := if !truthy endT && includesMarker "Finished Run" l
      then some (parsedTimestamp l) else endT
    if includesMarker "Starting Run" l then (some (parsedTimestamp l), endT')
    else scanRev rest endT'

/-- The status field of a `ParsedLogRun`. -/
inductive RunStatus where
  | running
  | completed
  | failed
deriving DecidableEq, Repr

/-- The record returned by `getLastRun`.  `endTime` keeps the raw
JavaScript value: `none` for `null`, and possibly `some ""` when a
non-matching finish line was captured. -/
structure ParsedLogRun where
  startTime : String
  endTime : Option String
  duration : Option String
  status : RunStatus
deriving DecidableEq, Repr

/-- Days since 1970-01-01 of a proleptic-Gregorian civil date
(the days-from-civil algorithm), used to model `Date.getTime` on the
parsed timestamps.  The constant timezone offset a real `new Date(...)`
adds cancels in the difference `end - start` and is omitted. -/
def daysFromCivil (y m d : Nat) : Int :=
  let yAdj : Int := (y : Int) - (if m ≤ 2 then 1 else 0)
  let era : Int := yAdj.fdiv 400
  let yoe : Int := yAdj - era * 400
  let mAdj : Int := (m : Int) + (if 2 < m then -3 else 9)
  let doy : Int := (153 * mAdj + 2).fdiv 5 + (d : Int) - 1
  let doe : Int := yoe * 365 + yoe.fdiv 4 - yoe.fdiv 100 + doy
  era * 146097 + doe - 719468

/-- Milliseconds of a timestamp, modelling `new Date(s.replace(',', '.'))
.getTime()` up to the constant timezone offset. -/
def tsMillis (t : Timestamp) : Int :=
  daysFromCivil t.year t.month t.day * 86400000 +
    (t.hour : Int) * 3600000 + (t.minute : Int) * 60000 +
    (t.second : Int) * 1000 + (t.milli : Int)

/-- Milliseconds of a captured timestamp string.  Every string reaching
this function in `getLastRun` was captured from a matching line and
parses; the 0 fallback models the otherwise-unreachable branch. -/
def dateStrMillis (s : String) : Int :=
  match parseTimestampChars s.toList with
  | some (t, _) => tsMillis t
  | none => 0

/-- The duration formatting of `getLastRun`:
`minutes = Math.floor(diffMs / 60000)`,
`seconds = Math.floor((diffMs % 60000) / 1000)`, rendered as
`` `${minutes}m ${seconds}s` ``.  `Int.fdiv` is JavaScript `Math.floor` of
the division and `Int.tmod` is the JavaScript `%`. -/
def fmtDuration (diffMs : Int) : String :=
  let minutes := diffMs.fdiv 60000
  let seconds := (diffMs.tmod 60000).fdiv 1000
  toString minutes ++ "m " ++ toString seconds ++ "s"

/-- `LogService.getLastRun` (src/unnamed/part_003, lines 224-269) on an
already-read window of lines: scan backward, return `null` when no truthy
start timestamp was captured, otherwise report `completed` with a duration
exactly when the captured `endTime` is truthy, and `running` with null
duration otherwise. -/
def getLastRunFromLines (lines : List String) : Option ParsedLogRun :=
  let p := scanRev lines.reverse none
  match p.1 with
  | none => none
  | some s =>
    if s = "" then none
    else if truthy p.2 then
      let endS := match p.2 with | some e => e | none => ""
      some ⟨s, p.2, some (fmtDuration (dateStrMillis endS - dateStrMillis s)),
        RunStatus.completed⟩
    else
      some ⟨s, p.2, none, RunStatus.running⟩

/-- `LogService.getLastRun` from the file content: the scanned window is
the last 2000 lines of `meta.log`. -/
def getLastRun (content : Option (List Char)) : Option ParsedLogRun :=
  getLastRunFromLines (readLines content 2000)

theorem scanRev_skip (ls rest : List String) (endT : Option String)
    (h : ∀ l ∈ ls, includesMarker "Starting Run" l = false ∧
      includesMarker "Finished Run" l = false) :
    scanRev (ls ++ rest) endT = scanRev rest endT := by
  induction ls with
  | nil => rfl
  | cons l ls ih =>
    have hl := h l (List.mem_cons_self l ls)
    have hr : ∀ x ∈ ls, includesMarker "Starting Run" x = false ∧
        includesMarker "Finished Run" x = false :=
      fun x hx => h x (List.mem_cons_of_mem l hx)
    have hstep : scanRev ((l :: ls) ++ rest) endT = scanRev (ls ++ rest) endT := by
      simp [scanRev, hl.1, hl.2]
    rw [hstep, ih hr]

theorem scanRev_skip_truthy (ls rest : List String) (endT : Option String)
    (htr : truthy endT = true)
    (h : ∀ l ∈ ls, includesMarker "Starting Run" l = false) :
    scanRev (ls ++ rest) endT = scanRev rest endT := by
  induction ls with
  | nil => rfl
  | cons l ls ih =>
    have hl := h l (List.mem_cons_self l ls)
    have hr : ∀ x ∈ ls, includesMarker "Starting Run" x = false :=
      fun x hx => h x (List.mem_cons_of_mem l hx)
    have hstep : scanRev ((l :: ls) ++ rest) endT = scanRev (ls ++ rest) endT := by
      simp [scanRev, htr, hl]
    rw [hstep, ih hr]

theorem scanRev_no_start (ls : List String) (endT : Option String)
    (h : ∀ l ∈ ls, includesMarker "Starting Run" l = false) :
    (scanRev ls endT).1 = none := by
  induction ls generalizing endT with
  | nil => rfl
  | cons l ls ih =>
    have hl := h l (List.mem_cons_self l ls)
    have hr : ∀ x ∈ ls, includesMarker "Starting Run" x = false :=
      fun x hx => h x (List.mem_cons_of_mem l hx)
    simp only [scanRev, hl, if_false]
    exact ih _ hr

/-- C7 counterexample: the window `["Starting Run"]` contains a start
marker and no finish marker anywhere, yet `getLastRun` returns `null`
rather than a `running` record: the marker line does not match the
structured log pattern, so the captured `startTime` is the falsy empty
string and the `if (!startTime) return null` guard fires. -/
theorem c7_counterexample :
    getLastRunFromLines ["Starting Run"] = none ∧
    includesMarker "Starting Run" "Starting Run" = true := by
  decide

/-- C7 (amended): when the scanned window contains a start marker whose
most recent occurrence lies on a line matching the canonical timestamped
pattern, and no line from that one onward contains a finish marker,
`getLastRun` returns `status = running` with null `endTime` and null
`duration`; when no line of the window contains a start marker it returns
none; and the scan never produces `status = failed` on any input.  (The
only correction to the claim: a start-marker line that does not match the
log pattern yields a falsy empty timestamp and `getLastRun` returns none
instead of a running record.) -/
theorem c7_running_record (pre suffix : List String) (sl : String)
    (hstart : includesMarker "Starting Run" sl = true)
    (hparse : parsedTimestamp sl ≠ "")
    (hnofin : includesMarker "Finished Run" sl = false)
    (hsuffix : ∀ l ∈ suffix, includesMarker "Starting Run" l = false ∧
      includesMarker "Finished Run" l = false) :
    getLastRunFromLines (pre ++ sl :: suffix) =
      some ⟨parsedTimestamp sl, none, none, RunStatus.running⟩ ∧
    (∀ lines : List String,
      (∀ l ∈ lines, includesMarker "Starting Run" l = false) →
      getLastRunFromLines lines = none) ∧
    (∀ lines : List String, ∀ r : ParsedLogRun,
      getLastRunFromLines lines = some r → r.status ≠ RunStatus.failed) := by
  refine ⟨?_, ?_, ?_⟩
  · have hs1 : ∀ l ∈ suffix.reverse, includesMarker "Starting Run" l = false ∧
        includesMarker "Finished Run" l = false := by
      intro l hl
      exact hsuffix l (List.mem_reverse.mp hl)
    have h3 : scanRev (sl :: pre.reverse) none = (some (parsedTimestamp sl), none) := by
      simp [scanRev, hstart, hnofin, truthy]
    have h2 : scanRev (suffix.reverse ++ sl :: pre.reverse) none =
        (some (parsedTimestamp sl), none) := by
      rw [scanRev_skip _ _ _ hs1, h3]
    simp [getLastRunFromLines, h2, hparse, truthy]
  · intro lines hno
    have h1 : (scanRev lines.reverse none).1 = none :=
      scanRev_no_start _ _ (fun l hl => hno l (List.mem_reverse.mp hl))
    simp [getLastRunFromLines, h1]
  · intro lines r h
    simp only [getLastRunFromLines] at h
    split at h
    · simp at h
    · split at h
      · simp at h
      · split at h <;> (injection h with h; subst h; simp)

theorem c7_witness :
    getLastRunFromLines
        ["plain line", "[2024-01-01 10:00:00,000] [Core] [INFO] | Starting Run"] =
      some ⟨parsedTimestamp "[2024-01-01 10:00:00,000] [Core] [INFO] | Starting Run",
        none, none, RunStatus.running⟩ ∧
    getLastRunFromLines ["no markers here"] = none :=
  ⟨(c7_running_record ["plain line"] []
      "[2024-01-01 10:00:00,000] [Core] [INFO] | Starting Run"
      (by decide) (by decide) (by decide) (by simp)).1,
   (c7_running_record ["plain line"] []
      "[2024-01-01 10:00:00,000] [Core] [INFO] | Starting Run"
      (by decide) (by decide) (by decide) (by simp)).2.1
     ["no markers here"] (by decide)⟩

/-- C8 (confirmed): when the backward scan finds both markers — the most
recent start-marker line and a finish-marker line after it, both matching
the log pattern — `getLastRun` reports `completed` with
`duration = fmtDuration (endMillis - startMillis)`: minutes are the floor
of the millisecond difference over 60000 and seconds the floor of the
remainder over 1000, with no rounding up. -/
theorem c8_completed_duration (pre mid suffix : List String) (sl el : String)
    (hstart : includesMarker "Starting Run" sl = true)
    (hsparse : parsedTimestamp sl ≠ "")
    (hfin : includesMarker "Finished Run" el = true)
    (heparse : parsedTimestamp el ≠ "")
    (helns : includesMarker "Starting Run" el = false)
    (hmid : ∀ l ∈ mid, includesMarker "Starting Run" l = false)
    (hsuffix : ∀ l ∈ suffix, includesMarker "Starting Run" l = false ∧
      includesMarker "Finished Run" l = false) :
    getLastRunFromLines (pre ++ sl :: (mid ++ el :: suffix)) =
      some ⟨parsedTimestamp sl, some (parsedTimestamp el),
        some (fmtDuration (dateStrMillis (parsedTimestamp el) -
          dateStrMillis (parsedTimestamp sl))),
        RunStatus.completed⟩ := by
  have htr : truthy (some (parsedTimestamp el)) = true := by
    simp [truthy, heparse]
  have hs1 : ∀ l ∈ suffix.reverse, includesMarker "Starting Run" l = false ∧
      includesMarker "Finished Run" l = false :=
    fun l hl => hsuffix l (List.mem_reverse.mp hl)
  have h3 : scanRev (el :: (mid.reverse ++ sl :: pre.reverse)) none =
      scanRev (mid.reverse ++ sl :: pre.reverse) (some (parsedTimestamp el)) := by
    simp [scanRev, hfin, helns, truthy]
  have h4 : scanRev (mid.reverse ++ sl :: pre.reverse) (some (parsedTimestamp el)) =
      scanRev (sl :: pre.reverse) (some (parsedTimestamp el)) :=
    scanRev_skip_truthy _ _ _ htr (fun l hl => hmid l (List.mem_reverse.mp hl))
  have h5 : scanRev (sl :: pre.reverse) (some (parsedTimestamp el)) =
      (some (parsedTimestamp sl), some (parsedTimestamp el)) := by
    simp [scanRev, hstart, htr]
  have h2 : scanRev (suffix.reverse ++ el :: (mid.reverse ++ sl :: pre.reverse)) none =
      (some (parsedTimestamp sl), some (parsedTimestamp el)) := by
    rw [scanRev_skip _ _ _ hs1, h3, h4, h5]
  simp [getLastRunFromLines, h2, hsparse, htr]

theorem c8_witness :
    getLastRunFromLines
        ["[2024-01-01 10:00:00,000] [Core] [INFO] | Starting Run",
         "[2024-01-01 10:05:30,500] [Core] [INFO] | Finished Run"] =
      some ⟨"2024-01-01 10:00:00,000", some "2024-01-01 10:05:30,500",
        some "5m 30s", RunStatus.completed⟩ := by
  have h := c8_completed_duration [] [] []
    "[2024-01-01 10:00:00,000] [Core] [INFO] | Starting Run"
    "[2024-01-01 10:05:30,500] [Core] [INFO] | Finished Run"
    (by decide) (by decide) (by decide) (by decide) (by decide)
    (by simp) (by simp)
  rw [show parsedTimestamp
      "[2024-01-01 10:00:00,000] [Core] [INFO] | Starting Run" =
      "2024-01-01 10:00:00,000" from by decide,
    show parsedTimestamp
      "[2024-01-01 10:05:30,500] [Core] [INFO] | Finished Run" =
      "2024-01-01 10:05:30,500" from by decide,
    show fmtDuration (dateStrMillis "2024-01-01 10:05:30,500" -
      dateStrMillis "2024-01-01 10:00:00,000") = "5m 30s" from by decide] at h
  exact h

/-- The filesystem state seen by `ConfigService`
(src/backend/src/services/docker.ts): the current `config.yml` content
(`none` when the file is absent) and the backup directory.  Each backup is
its creation timestamp paired with its content; the list is kept
newest-first, mirroring the order `listBackups` reports (a directory
itself is unordered). -/
structure ConfigState where
  config : Option String
  backups : List (Nat × String)
deriving DecidableEq, Repr

/-- `ConfigService.maxBackups`. -/
def maxBackups : Nat := 10

/-- `ConfigService.cleanOldBackups`: list the backups sorted
newest-first (by timestamp, as `listBackups` sorts by mtime descending)
and, when more than `maxBackups` exist, delete all but the first
`maxBackups` of the sorted order. -/
def cleanOldBackups (backups : List (Nat × String)) : List (Nat × String) :=
  let sorted := backups.insertionSort (fun a b => b.1 ≤ a.1)
  if maxBackups < sorted.length then sorted.take maxBackups else backups

/-- `ConfigService.createBackup` at time `now`: copying `config.yml` into
a fresh timestamped backup file throws when the config file is absent
(`none`); otherwise the backup is added and old backups are cleaned. -/
def createBackup (st : ConfigState) (now : Nat) : Option ConfigState :=
  match st.config with
  | none => none
  | some c => some { st with backups := cleanOldBackups ((now, c) :: st.backups) }

/-- `ConfigService.save` at time `now`.  `parseOk` abstracts the external
`yaml.load` collaborator: `false` means the parse throws a
`YAMLException`.  The order is that of the source: validate the YAML,
create a backup, then write the new content atomically
(write-temp-then-rename); any throw is caught and reported as a failure
result. -/
def save (parseOk : String → Bool) (st : ConfigState) (now : Nat) (content : String) :
    Bool × ConfigState :=
  if parseOk content then
    match createBackup st now with
    | none => (false, st)
    | some st1 => (true, { st1 with config := some content })
  else (false, st)

/-- `ConfigService.restore` of the backup with timestamp `t` at time
`now`: check the backup exists, back up the current config, then copy the
backup over `config.yml` — re-reading the backup directory after the
clean, since `cleanOldBackups` may have deleted the very file being
restored (the copy then throws and the handler reports failure, keeping
the state mutations already made). -/
def restore (st : ConfigState) (now : Nat) (t : Nat) : Bool × ConfigState :=
  match st.backups.find? (fun b => b.1 == t) with
  | none => (false, st)
  | some _ =>
    match createBackup st now with
    | none => (false, st)
    | some st1 =>
      match st1.backups.find? (fun b => b.1 == t) with
      | none => (false, st1)
      | some b => (true, { st1 with config := some b.2 })

/-- A sequence of `save` calls, each given as (timestamp, new content). -/
def applySaves (parseOk : String → Bool) (st : ConfigState) :
    List (Nat × String) → ConfigState
  | [] => st
  | (t, c) :: rest => applySaves parseOk (save parseOk st t c).2 rest

theorem take10_of_cons11 (x1 x2 x3 x4 x5 x6 x7 x8 x9 x10 x11 : Nat × String) :
    ([x1, x2, x3, x4, x5, x6, x7, x8, x9, x10, x11].take maxBackups) =
      [x1, x2, x3, x4, x5, x6, x7, x8, x9, x10] := rfl

theorem save_of_sorted (parseOk : String → Bool) (c0 c : String)
    (bs : List (Nat × String)) (t : Nat)
    (hok : parseOk c = true)
    (hs : List.Sorted (fun a b : Nat × String => b.1 ≤ a.1) ((t, c0) :: bs)) :
    save parseOk ⟨some c0, bs⟩ t c =
      (true, ⟨some c, ((t, c0) :: bs).take maxBackups⟩) := by
  simp only [save, hok, if_true, createBackup, cleanOldBackups,
    List.Sorted.insertionSort_eq hs]
  split
  · rfl
  · rename_i hlen
    rw [List.take_of_length_le (by omega)]

theorem applySaves_step (parseOk : String → Bool) (c0 c : String)
    (bs : List (Nat × String)) (t : Nat) (rest : List (Nat × String))
    (hok : parseOk c = true)
    (hs : List.Sorted (fun a b : Nat × String => b.1 ≤ a.1) ((t, c0) :: bs))
    (hlen : bs.length < maxBackups) :
    applySaves parseOk ⟨some c0, bs⟩ ((t, c) :: rest) =
      applySaves parseOk ⟨some c, (t, c0) :: bs⟩ rest := by
  have h := save_of_sorted parseOk c0 c bs t hok hs
  rw [List.take_of_length_le (by simp; omega)] at h
  simp [applySaves, h]

theorem applySaves_step_full (parseOk : String → Bool) (c0 c : String)
    (bs : List (Nat × String)) (t : Nat) (rest : List (Nat × String))
    (hok : parseOk c = true)
    (hs : List.Sorted (fun a b : Nat × String => b.1 ≤ a.1) ((t, c0) :: bs)) :
    applySaves parseOk ⟨some c0, bs⟩ ((t, c) :: rest) =
      applySaves parseOk ⟨some c, ((t, c0) :: bs).take maxBackups⟩ rest := by
  have h := save_of_sorted parseOk c0 c bs t hok hs
  simp [applySaves, h]

/-- C5 (confirmed): starting from an existing config and an empty backup
directory, 11 successive successful saves with strictly increasing
timestamps leave exactly `maxBackups = 10` backup files, and the retained
ones are the 10 most recently created (the timestamps of saves 2..11,
newest first); moreover a save backs up the pre-save config under the save
timestamp before the config is overwritten, and a restore backs up the
pre-restore config before copying the chosen backup over it. -/
theorem c5_backup_retention (parseOk : String → Bool) (c0 : String)
    (ops : List (Nat × String))
    (hlen : ops.length = 11)
    (hvalid : ∀ p ∈ ops, parseOk p.2 = true)
    (hmono : List.Chain' (· < ·) (ops.map Prod.fst)) :
    ((applySaves parseOk ⟨some c0, []⟩ ops).backups.length = maxBackups ∧
     (applySaves parseOk ⟨some c0, []⟩ ops).backups.map Prod.fst =
       ((ops.map Prod.fst).drop 1).reverse) ∧
    (∀ (bs : List (Nat × String)) (now : Nat) (c cfg : String),
      parseOk c = true →
      List.Sorted (fun a b : Nat × String => b.1 ≤ a.1) ((now, cfg) :: bs) →
      (save parseOk ⟨some cfg, bs⟩ now c).1 = true ∧
      (save parseOk ⟨some cfg, bs⟩ now c).2.config = some c ∧
      (now, cfg) ∈ (save parseOk ⟨some cfg, bs⟩ now c).2.backups) ∧
    (∀ (bs : List (Nat × String)) (now t : Nat) (b0 : Nat × String) (cfg : String),
      bs.find? (fun b => b.1 == t) = some b0 →
      List.Sorted (fun a b : Nat × String => b.1 ≤ a.1) ((now, cfg) :: bs) →
      bs.length < maxBackups → (now == t) = false →
      restore ⟨some cfg, bs⟩ now t = (true, ⟨some b0.2, (now, cfg) :: bs⟩)) := by
  refine ⟨?_, ?_, ?_⟩
  · rcases ops with _ | ⟨⟨t1, d1⟩, ops⟩
    · exfalso; simp only [List.length_nil] at hlen; omega
    rcases ops with _ | ⟨⟨t2, d2⟩, ops⟩
    · exfalso; simp only [List.length_cons, List.length_nil] at hlen; omega
    rcases ops with _ | ⟨⟨t3, d3⟩, ops⟩
    · exfalso; simp only [List.length_cons, List.length_nil] at hlen; omega
    rcases ops with _ | ⟨⟨t4, d4⟩, ops⟩
    · exfalso; simp only [List.length_cons, List.length_nil] at hlen; omega
    rcases ops with _ | ⟨⟨t5, d5⟩, ops⟩
    · exfalso; simp only [List.length_cons, List.length_nil] at hlen; omega
    rcases ops with _ | ⟨⟨t6, d6⟩, ops⟩
    · exfalso; simp only [List.length_cons, List.length_nil] at hlen; omega
    rcases ops with _ | ⟨⟨t7, d7⟩, ops⟩
    · exfalso; simp only [List.length_cons, List.length_nil] at hlen; omega
    rcases ops with _ | ⟨⟨t8, d8⟩, ops⟩
    · exfalso; simp only [List.length_cons, List.length_nil] at hlen; omega
    rcases ops with _ | ⟨⟨t9, d9⟩, ops⟩
    · exfalso; simp only [List.length_cons, List.length_nil] at hlen; omega
    rcases ops with _ | ⟨⟨t10, d10⟩, ops⟩
    · exfalso; simp only [List.length_cons, List.length_nil] at hlen; omega
    rcases ops with _ | ⟨⟨t11, d11⟩, ops⟩
    · exfalso; simp only [List.length_cons, List.length_nil] at hlen; omega
    rcases ops with _ | ⟨p12, ops⟩
    swap
    · exfalso; simp only [List.length_cons, List.length_nil] at hlen; omega
    simp only [List.mem_cons, List.not_mem_nil, or_false, forall_eq_or_imp,
      forall_eq] at hvalid
    obtain ⟨hv1, hv2, hv3, hv4, hv5, hv6, hv7, hv8, hv9, hv10, hv11⟩ := hvalid
    simp only [List.map_cons, List.map_nil, List.chain'_cons,
      List.chain'_singleton, and_true] at hmono
    obtain ⟨hm1, hm2, hm3, hm4, hm5, hm6, hm7, hm8, hm9, hm10⟩ := hmono
    rw [applySaves_step parseOk c0 d1 [] t1 _ hv1
        (by simp) (by simp [maxBackups])]
    rw [applySaves_step parseOk d1 d2 [(t1, c0)] t2 _ hv2
        (by simp [List.sorted_cons]; omega) (by simp [maxBackups])]
    rw [applySaves_step parseOk d2 d3 [(t2, d1), (t1, c0)] t3 _ hv3
        (by simp [List.sorted_cons]; omega) (by simp [maxBackups])]
    rw [applySaves_step parseOk d3 d4 [(t3, d2), (t2, d1), (t1, c0)] t4 _ hv4
        (by simp [List.sorted_cons]; omega) (by simp [maxBackups])]
    rw [applySaves_step parseOk d4 d5 [(t4, d3), (t3, d2), (t2, d1), (t1, c0)] t5 _ hv5
        (by simp [List.sorted_cons]; omega) (by simp [maxBackups])]
    rw [applySaves_step parseOk d5 d6
        [(t5, d4), (t4, d3), (t3, d2), (t2, d1), (t1, c0)] t6 _ hv6
        (by simp [List.sorted_cons]; omega) (by simp [maxBackups])]
    rw [applySaves_step parseOk d6 d7
        [(t6, d5), (t5, d4), (t4, d3), (t3, d2), (t2, d1), (t1, c0)] t7 _ hv7
        (by simp [List.sorted_cons]; omega) (by simp [maxBackups])]
    rw [applySaves_step parseOk d7 d8
        [(t7, d6), (t6, d5), (t5, d4), (t4, d3), (t3, d2), (t2, d1), (t1, c0)] t8 _ hv8
        (by simp [List.sorted_cons]; omega) (by simp [maxBackups])]
    rw [applySaves_step parseOk d8 d9
        [(t8, d7), (t7, d6), (t6, d5), (t5, d4), (t4, d3), (t3, d2), (t2, d1),
          (t1, c0)] t9 _ hv9
        (by simp [List.sorted_cons]; omega) (by simp [maxBackups])]
    rw [applySaves_step parseOk d9 d10
        [(t9, d8), (t8, d7), (t7, d6), (t6, d5), (t5, d4), (t4, d3), (t3, d2),
          (t2, d1), (t1, c0)] t10 _ hv10
        (by simp [List.sorted_cons]; omega) (by simp [maxBackups])]
    rw [applySaves_step_full parseOk d10 d11
        [(t10, d9), (t9, d8), (t8, d7), (t7, d6), (t6, d5), (t5, d4), (t4, d3),
          (t3, d2), (t2, d1), (t1, c0)] t11 _ hv11
        (by simp [List.sorted_cons]; omega)]
    rw [take10_of_cons11]
    simp [applySaves, maxBackups]
  · intro bs now c cfg hok hs
    rw [save_of_sorted parseOk cfg c bs now hok hs]
    refine ⟨rfl, rfl, ?_⟩
    have ht : ((now, cfg) :: bs).take maxBackups = (now, cfg) :: bs.take 9 := rfl
    rw [ht]
    exact List.mem_cons_self _ _
  · intro bs now t b0 cfg hfind hs hblen hneq
    have hclean : cleanOldBackups ((now, cfg) :: bs) = (now, cfg) :: bs := by
      simp only [cleanOldBackups, List.Sorted.insertionSort_eq hs]
      rw [if_neg (by simp only [List.length_cons]; omega)]
    simp [restore, hfind, createBackup, hclean, List.find?, hneq]

theorem c5_witness :
    ((applySaves (fun _ => true)
        ⟨some "y0", []⟩
        [(1, "y1"), (2, "y2"), (3, "y3"), (4, "y4"), (5, "y5"), (6, "y6"),
          (7, "y7"), (8, "y8"), (9, "y9"), (10, "y10"), (11, "y11")]).backups.length =
        maxBackups ∧
     (applySaves (fun _ => true)
        ⟨some "y0", []⟩
        [(1, "y1"), (2, "y2"), (3, "y3"), (4, "y4"), (5, "y5"), (6, "y6"),
          (7, "y7"), (8, "y8"), (9, "y9"), (10, "y10"), (11, "y11")]).backups.map
        Prod.fst =
       ((([(1, "y1"), (2, "y2"), (3, "y3"), (4, "y4"), (5, "y5"), (6, "y6"),
          (7, "y7"), (8, "y8"), (9, "y9"), (10, "y10"),
          (11, "y11")] : List (Nat × String)).map Prod.fst).drop 1).reverse) ∧
    ((save (fun _ => true) ⟨some "c0", []⟩ 1 "c").1 = true ∧
     (save (fun _ => true) ⟨some "c0", []⟩ 1 "c").2.config = some "c" ∧
     (1, "c0") ∈ (save (fun _ => true) ⟨some "c0", []⟩ 1 "c").2.backups) ∧
    restore ⟨some "c0", [(1, "b")]⟩ 2 1 = (true, ⟨some "b", [(2, "c0"), (1, "b")]⟩) := by
  have h := c5_backup_retention (fun _ => true) "y0"
    [(1, "y1"), (2, "y2"), (3, "y3"), (4, "y4"), (5, "y5"), (6, "y6"),
      (7, "y7"), (8, "y8"), (9, "y9"), (10, "y10"), (11, "y11")]
    rfl (by simp) (by simp [List.chain'_cons])
  exact ⟨h.1,
    h.2.1 [] 1 "c" "c0" rfl (by simp),
    h.2.2 [(1, "b")] 2 1 (1, "b") "c0" (by decide) (by decide) (by decide) (by decide)⟩

/-- C6 (confirmed): a save whose content fails the YAML parse returns a
failure result and leaves the whole state untouched — the on-disk config
is byte-for-byte unchanged and no backup is created, because `yaml.load`
throws before `createBackup` and before the write. -/
theorem c6_invalid_yaml_save (parseOk : String → Bool) (st : ConfigState)
    (now : Nat) (content : String) (hbad : parseOk content = false) :
    save parseOk st now content = (false, st) := by
  simp [save, hbad]

theorem c6_witness :
    save (fun _ => false) ⟨some "a: 1", [(3, "old")]⟩ 5 ":bad yaml:" =
      (false, ⟨some "a: 1", [(3, "old")]⟩) :=
  c6_invalid_yaml_save (fun _ => false) ⟨some "a: 1", [(3, "old")]⟩ 5 ":bad yaml:" rfl

/-- The `State` block of a container inspect result, as read by
`DockerService.getStatus` (src/backend/src/services/docker.ts, lines
22-60).  `startedAt`/`finishedAt` carry the raw strings (`""` is falsy and
becomes `null` in the output); `exitCode` is `none` when absent
(`?? null`). -/
structure InspectState where
  running : Bool
  paused : Bool
  restarting : Bool
  startedAt : String
  finishedAt : String
  exitCode : Option Int
deriving DecidableEq, Repr

/-- A container inspect result: its state and `Config.Env` entries. -/
structure InspectInfo where
  state : InspectState
  env : List String
deriving DecidableEq, Repr

/-- The `containerState` field of the status payload. -/
inductive ContainerStateKind where
  | running
  | exited
  | paused
  | restarting
  | unknown
deriving DecidableEq, Repr

/-- The `KometaStatus` payload returned by `GET status`. -/
structure KometaStatus where
  containerState : ContainerStateKind
  isJobActive : Bool
  startedAt : Option String
  finishedAt : Option String
  exitCode : Option Int
  scheduledTime : String
  error : Option String
deriving DecidableEq, Repr

/-- JavaScript `String.prototype.split('=')` at the character level. -/
def splitAtEq : List Char → List Char → List (List Char)
  | acc, [] => [acc.reverse]
  | acc, c :: rest =>
    if c = '=' then acc.reverse :: splitAtEq [] rest
    else splitAtEq (c :: acc) rest

/-- `e.split('=')[1]` for a string known to contain at least one `=`. -/
def splitEqSecond (e : String) : String :=
  match splitAtEq [] e.toList with
  | _ :: v :: _ => String.mk v
  | _ => ""

/-- `e.startsWith('KOMETA_TIME=')`. -/
def isTimeEnv (e : String) : Bool := "KOMETA_TIME=".toList.isPrefixOf e.toList

/-- `DockerService.getStatus`: on a successful inspect, classify the
container state, report `isJobActive = state.Running`, pass the timestamps
and exit code through, and parse the scheduled time from the first
`KOMETA_TIME=` environment entry with default "03:00"; on an inspect
error (`none`), report `unknown`, inactive, "03:00" and the error
message. -/
def getStatus (inspectResult : Option InspectInfo) (errMsg : String) : KometaStatus :=
  match inspectResult with
  | none => ⟨ContainerStateKind.unknown, false, none, none, none, "03:00", some errMsg⟩
  | some info =>
    let s := info.state
    let kind :=
      if s.running then ContainerStateKind.running
      else if s.paused then ContainerStateKind.paused
      else if s.restarting then ContainerStateKind.restarting
      else ContainerStateKind.exited
    let timeEnv := info.env.find? (isTimeEnv)
    let scheduledTime :=
      match timeEnv with
      | some e => splitEqSecond e
      | none => "03:00"
    ⟨kind, s.running,
      (if s.startedAt = "" then none else some s.startedAt),
      (if s.finishedAt = "" then none else some s.finishedAt),
      s.exitCode, scheduledTime, none⟩

/-- Modelled from the spec: the derived job-activity heuristic the spec
attributes to `GET status` — the job is reported active iff the log
file's modification time is within 60 seconds of now.  No such
computation exists anywhere in the source; this definition follows the
spec's words for comparison with `getStatus`. -/
def specJobActiveHeuristic (logMtimeAgoSeconds : Nat) : Bool :=
  logMtimeAgoSeconds ≤ 60

/-- C9 counterexample: a running container whose log was last modified an
hour ago.  `getStatus` reports the job active (it returns the container's
`Running` flag and consults no modification time at all), while the
spec's mtime heuristic says inactive — refuting the claim that the job is
reported active iff the log mtime is within 60 seconds of now. -/
theorem c9_counterexample :
    (getStatus (some ⟨⟨true, false, false, "", "", none⟩, []⟩) "").isJobActive = true ∧
    specJobActiveHeuristic 3600 = false := by
  decide

/-- C9 (amended): `GET status` reports `isJobActive` as the container's
`Running` flag — no log-mtime heuristic is involved — and the scheduled
time is the text after the first `=` of the first `KOMETA_TIME=`
environment entry of the container, defaulting to "03:00" when the entry
is missing and also when the inspect itself fails. -/
theorem c9_status_fields (info : InspectInfo) (msg : String) :
    (getStatus (some info) msg).isJobActive = info.state.running ∧
    (getStatus (some info) msg).scheduledTime =
      (match info.env.find? (isTimeEnv) with
       | some e => splitEqSecond e
       | none => "03:00") ∧
    (getStatus none msg).isJobActive = false ∧
    (getStatus none msg).scheduledTime = "03:00" ∧
    (getStatus
      (some ⟨⟨false, false, false, "", "", none⟩, ["TZ=UTC", "KOMETA_TIME=04:30"]⟩)
      msg).scheduledTime = "04:30" := by
  refine ⟨rfl, rfl, rfl, rfl, rfl⟩

end KometaUI
